import Mathlib

/-!
Verification development for docsnap, a documentation-site crawler and
book assembler (src/docsnap.py).

The embedding models:
  * the URL helpers from Python's urllib.parse that the source calls
    (urlsplit / urlparse / urlunsplit / urlunparse / urljoin), restricted
    to inputs without control characters and without the bracketed-IPv6
    validation (which can only raise on malformed bracket syntax);
  * the source's own helpers normalize_link, is_same_domain,
    extract_main_html, clean_html_fragment;
  * the crawl loop crawl_docs as a step function over an explicit state
    (frontier list, visited set as a duplicate-free list, ordered page
    records, and a log of the URLs actually fetched);
  * the assembler build_book_html as a function producing the
    table-of-contents entries and chapter blocks the source builds.

HTML documents are modelled as a tree (Node); BeautifulSoup parsing is an
oracle parameter, and serializing a fragment with str(...) followed by
re-parsing it (which the source does between crawl_docs and
build_book_html) is modelled as the identity on trees.
-/

namespace Docsnap

/-! ### Python string helpers on lists of characters -/

/-- Whitespace characters stripped by Python's str.strip (ASCII subset). -/
def pySpace (c : Char) : Bool :=
  c == ' ' || c == '\t' || c == '\n' || c == '\r' || c == '\x0b' || c == '\x0c'

/-- Python str.strip: drop whitespace from both ends. -/
def pyStrip (l : List Char) : List Char :=
  ((l.dropWhile pySpace).reverse.dropWhile pySpace).reverse

/-- Python str.startswith, on the underlying character lists. -/
def pyStartsWith (s p : String) : Bool := p.data.isPrefixOf s.data

/-- Python `sub in s` substring test. -/
def listHasInfix (sub : List Char) : List Char → Bool
  | [] => sub.isEmpty
  | c :: t => sub.isPrefixOf (c :: t) || listHasInfix sub t

/-- Python s.split(sep) for a single character separator (never returns []). -/
def splitChar (sep : Char) : List Char → List (List Char)
  | [] => [[]]
  | c :: cs =>
    let r := splitChar sep cs
    if c = sep then [] :: r
    else
      match r with
      | [] => [[c]]
      | h :: t => (c :: h) :: t

/-! ### Decimal rendering of naturals (Python str(i) inside f-strings) -/

/-- Fuel-indexed decimal digits of a natural number, most significant first.
Fuel n+1 always suffices for n. -/
def natDigitsAux : Nat → Nat → List Char
  | 0, _ => []
  | f + 1, n =>
    if n < 10 then [Nat.digitChar n]
    else natDigitsAux f (n / 10) ++ [Nat.digitChar (n % 10)]

/-- Decimal digits of a natural number. -/
def natDigits (n : Nat) : List Char := natDigitsAux (n + 1) n

/-- Python str(i) for a natural number. -/
def natStr (n : Nat) : String := ⟨natDigits n⟩

/-- Numeric value of a list of decimal digit characters. -/
def digitsVal (l : List Char) : Nat :=
  l.foldl (fun a c => 10 * a + (c.toNat - 48)) 0

theorem digitChar_isDigit {n : Nat} (h : n < 10) : (Nat.digitChar n).isDigit := by
  interval_cases n <;> decide

theorem digitChar_toNat {n : Nat} (h : n < 10) : (Nat.digitChar n).toNat = 48 + n := by
  interval_cases n <;> decide

theorem natDigitsAux_isDigit : ∀ f n c, c ∈ natDigitsAux f n → c.isDigit := by
  intro f
  induction f with
  | zero => intro n c hc; simp [natDigitsAux] at hc
  | succ f ih =>
    intro n c hc
    by_cases h : n < 10
    · simp [natDigitsAux, h] at hc
      subst hc; exact digitChar_isDigit h
    · simp [natDigitsAux, h] at hc
      rcases hc with hc | hc
      · exact ih _ _ hc
      · subst hc; exact digitChar_isDigit (Nat.mod_lt _ (by omega))

theorem digitsVal_append_one (l : List Char) (c : Char) :
    digitsVal (l ++ [c]) = 10 * digitsVal l + (c.toNat - 48) := by
  simp [digitsVal, List.foldl_append]

theorem digitsVal_natDigitsAux : ∀ f n, n < f → digitsVal (natDigitsAux f n) = n := by
  intro f
  induction f with
  | zero => intro n h; omega
  | succ f ih =>
    intro n h
    by_cases h10 : n < 10
    · simp [natDigitsAux, h10, digitsVal]
      rw [digitChar_toNat h10]; omega
    · have hdiv : n / 10 < n := Nat.div_lt_self (by omega) (by omega)
      have : n / 10 < f := by omega
      simp [natDigitsAux, h10]
      rw [digitsVal_append_one, ih _ this, digitChar_toNat (Nat.mod_lt _ (by omega))]
      omega

theorem natDigits_val (n : Nat) : digitsVal (natDigits n) = n :=
  digitsVal_natDigitsAux (n + 1) n (by omega)

theorem natStr_injective : ∀ i j, natStr i = natStr j → i = j := by
  intro i j h
  have : natDigits i = natDigits j := congrArg String.data h
  have := congrArg digitsVal this
  rwa [natDigits_val, natDigits_val] at this

theorem natDigits_no_dash : ∀ n c, c ∈ natDigits n → c ≠ '-' := by
  intro n c hc heq
  have := natDigitsAux_isDigit (n + 1) n c hc
  subst heq; simp [Char.isDigit] at this

/-- Two dash-free prefixes followed by a dash determine each other. -/
theorem dash_prefix_inj : ∀ (xs ys a b : List Char),
    (∀ c ∈ xs, c ≠ '-') → (∀ c ∈ ys, c ≠ '-') →
    xs ++ '-' :: a = ys ++ '-' :: b → xs = ys := by
  intro xs
  induction xs with
  | nil =>
    intro ys a b _ hys h
    cases ys with
    | nil => rfl
    | cons y t =>
      simp at h
      exact absurd h.1.symm (hys y (by simp))
  | cons x xs ih =>
    intro ys a b hxs hys h
    cases ys with
    | nil =>
      simp at h
      exact absurd h.1 (hxs x (by simp))
    | cons y t =>
      simp at h
      obtain ⟨hxy, hrest⟩ := h
      have := ih t a b (fun c hc => hxs c (by simp [hc])) (fun c hc => hys c (by simp [hc])) hrest
      simp [hxy, this]

/-! ### urllib.parse model

Faithful to CPython's pure-Python implementation on inputs free of control
characters; the bracketed-host validation (which raises ValueError on
malformed brackets) is not modelled. -/

/-- Characters allowed in a URL scheme (CPython scheme_chars). -/
def schemeChars : List Char :=
  "abcdefghijklmnopqrstuvwxyzABCDEFGHIJKLMNOPQRSTUVWXYZ0123456789+-.".data

/-- CPython urllib.parse.uses_relative. -/
def usesRelative : List (List Char) :=
  ["", "ftp", "http", "gopher", "nntp", "imap", "wais", "file", "https",
   "shttp", "mms", "prospero", "rtsp", "rtspu", "sftp", "svn", "svn+ssh",
   "ws", "wss"].map String.data

/-- CPython urllib.parse.uses_netloc. -/
def usesNetloc : List (List Char) :=
  ["", "ftp", "http", "gopher", "nntp", "telnet", "imap", "wais", "file",
   "mms", "https", "shttp", "snews", "prospero", "rtsp", "rtspu", "rsync",
   "svn", "svn+ssh", "sftp", "nfs", "git", "git+ssh", "ws", "wss",
   "itms-services"].map String.data

/-- CPython urllib.parse.uses_params. -/
def usesParams : List (List Char) :=
  ["", "ftp", "hdl", "prospero", "http", "imap", "https", "shttp", "rtsp",
   "rtspu", "sip", "sips", "mms", "sftp", "tel"].map String.data

/-- Scheme extraction of urlsplit: the prefix before the first colon is a
scheme if it is nonempty, starts with an ASCII letter, and consists of
scheme characters; it is returned lowercased, with the remainder. -/
def splitScheme (l : List Char) : Option (List Char × List Char) :=
  let pre := l.takeWhile (fun c => c ≠ ':')
  if pre.length < l.length && !pre.isEmpty && (pre.headD 'a').isAlpha
      && pre.all (fun c => schemeChars.contains c) then
    some (pre.map Char.toLower, l.drop (pre.length + 1))
  else none

/-- Netloc extraction of urlsplit: after a leading "//", up to the first
of '/', '?' or '#'. Returns (netloc, rest). -/
def splitNetloc (l : List Char) : List Char × List Char :=
  if l.take 2 = ['/', '/'] then
    let after := l.drop 2
    let nl := after.takeWhile (fun c => c ≠ '/' && c ≠ '?' && c ≠ '#')
    (nl, after.drop nl.length)
  else ([], l)

structure SplitUrl where
  scheme : List Char
  netloc : List Char
  path : List Char
  query : List Char
  fragment : List Char
deriving DecidableEq, Repr

/-- CPython urlsplit(url, scheme=d, allow_fragments=True). -/
def urlsplitL (d : List Char) (l : List Char) : SplitUrl :=
  let sr :=
    match splitScheme l with
    | some p => p
    | none => (d, l)
  let nr := splitNetloc sr.2
  let fr :=
    if nr.2.contains '#' then
      (nr.2.takeWhile (fun c => c ≠ '#'), (nr.2.dropWhile (fun c => c ≠ '#')).drop 1)
    else (nr.2, [])
  let pq :=
    if fr.1.contains '?' then
      (fr.1.takeWhile (fun c => c ≠ '?'), (fr.1.dropWhile (fun c => c ≠ '?')).drop 1)
    else (fr.1, [])
  ⟨sr.1, nr.1, pq.1, pq.2, fr.2⟩

structure UrlParts where
  scheme : List Char
  netloc : List Char
  path : List Char
  params : List Char
  query : List Char
  fragment : List Char
deriving DecidableEq, Repr

/-- CPython _splitparams: split ";params" off the last path segment. -/
def splitParamsL (p : List Char) : List Char × List Char :=
  if p.contains '/' then
    let seg := (p.reverse.takeWhile (fun c => c ≠ '/')).reverse
    let pre := p.take (p.length - seg.length)
    if seg.contains ';' then
      (pre ++ seg.takeWhile (fun c => c ≠ ';'), (seg.dropWhile (fun c => c ≠ ';')).drop 1)
    else (p, [])
  else
    if p.contains ';' then
      (p.takeWhile (fun c => c ≠ ';'), (p.dropWhile (fun c => c ≠ ';')).drop 1)
    else (p, [])

/-- CPython urlparse(url, scheme=d, allow_fragments=True). -/
def urlparseL (d : List Char) (l : List Char) : UrlParts :=
  let s := urlsplitL d l
  if usesParams.contains s.scheme && s.path.contains ';' then
    let pp := splitParamsL s.path
    ⟨s.scheme, s.netloc, pp.1, pp.2, s.query, s.fragment⟩
  else
    ⟨s.scheme, s.netloc, s.path, [], s.query, s.fragment⟩

/-- CPython urlunsplit. -/
def urlunsplitL (s : SplitUrl) : List Char :=
  let url := s.path
  let url :=
    if !s.netloc.isEmpty || url.take 2 = ['/', '/'] then
      let url := if !url.isEmpty && url.take 1 ≠ ['/'] then '/' :: url else url
      '/' :: '/' :: (s.netloc ++ url)
    else url
  let url := if !s.scheme.isEmpty then s.scheme ++ ':' :: url else url
  let url := if !s.query.isEmpty then url ++ '?' :: s.query else url
  if !s.fragment.isEmpty then url ++ '#' :: s.fragment else url

/-- CPython urlunparse. -/
def urlunparseL (u : UrlParts) : List Char :=
  let p := if !u.params.isEmpty then u.path ++ ';' :: u.params else u.path
  urlunsplitL ⟨u.scheme, u.netloc, p, u.query, u.fragment⟩

/-- Middle-segment filter of urljoin: segments[1:-1] = filter(None, segments[1:-1]). -/
def filterMiddle (l : List (List Char)) : List (List Char) :=
  match l with
  | [] => []
  | [a] => [a]
  | a :: b => a :: ((b.dropLast.filter (fun x => !x.isEmpty)) ++ [b.getLastD []])

/-- CPython urljoin(base, url). -/
def urljoinL (base url : List Char) : List Char :=
  if base.isEmpty then url
  else if url.isEmpty then base
  else
    let b := urlparseL [] base
    let u := urlparseL b.scheme url
    if u.scheme ≠ b.scheme ∨ ¬ usesRelative.contains u.scheme then url
    else if usesNetloc.contains u.scheme ∧ u.netloc ≠ [] then
      urlunparseL ⟨u.scheme, u.netloc, u.path, u.params, u.query, u.fragment⟩
    else
      let nl := if usesNetloc.contains u.scheme then b.netloc else u.netloc
      if u.path.isEmpty && u.params.isEmpty then
        let q := if u.query.isEmpty then b.query else u.query
        urlunparseL ⟨u.scheme, nl, b.path, b.params, q, u.fragment⟩
      else
        let baseParts := splitChar '/' b.path
        let baseParts :=
          if baseParts.getLastD [] ≠ [] then baseParts.dropLast else baseParts
        let segments :=
          if u.path.take 1 = ['/'] then splitChar '/' u.path
          else filterMiddle (baseParts ++ splitChar '/' u.path)
        let resolved := segments.foldl
          (fun acc seg =>
            if seg = ['.', '.'] then acc.dropLast
            else if seg = ['.'] then acc
            else acc ++ [seg]) []
        let resolved :=
          if segments.getLastD [] = ['.'] || segments.getLastD [] = ['.', '.'] then
            resolved ++ [[]]
          else resolved
        let path := List.intercalate ['/'] resolved
        let path := if path.isEmpty then ['/'] else path
        urlunparseL ⟨u.scheme, nl, path, u.params, u.query, u.fragment⟩

/-- urljoin on strings. -/
def urljoin (base url : String) : String := ⟨urljoinL base.data url.data⟩

/-! ### The source's URL helpers (docsnap.py lines 46-62) -/

/-- docsnap.is_same_domain: a link with no netloc is same-site; otherwise
the netloc must equal the reference netloc exactly. -/
def is_same_domain (start_netloc : String) (link : String) : Bool :=
  let p := urlparseL [] link.data
  if p.netloc.isEmpty then true else p.netloc = start_netloc.data

/-- docsnap.normalize_link: None for empty href, drop the fragment, strip
whitespace, None for mailto:/tel:, otherwise urljoin against the base. -/
def normalize_link (base href : String) : Option String :=
  if href = "" then none
  else
    let h := href.data.takeWhile (fun c => c ≠ '#')
    let h := pyStrip h
    if "mailto:".data.isPrefixOf h || "tel:".data.isPrefixOf h then none
    else some ⟨urljoinL base.data h⟩

/-! ### HTML tree model

A parsed document is a tree of element and text nodes; attributes are an
association list of raw attribute strings (bs4 multi-valued class
attributes are modelled by their space-joined serialization, which is what
the source's CSS substring / class selectors compare against). -/

mutual

inductive Node where
  | text (s : String) : Node
  | elem (tag : String) (attrs : List (String × String)) (children : NodeList) : Node

inductive NodeList where
  | nil : NodeList
  | cons (head : Node) (tail : NodeList) : NodeList

end

/-- Tag name of a node ("" for text nodes). -/
def Node.tagOf : Node → String
  | .text _ => ""
  | .elem t _ _ => t

/-- Attribute lookup (bs4 tag.get(key)). -/
def getAttr (attrs : List (String × String)) (k : String) : Option String :=
  (attrs.find? (fun p => p.1 == k)).map (fun p => p.2)

/-- Attribute of a node (none on text nodes). -/
def Node.attrOf : Node → String → Option String
  | .text _, _ => none
  | .elem _ a _, k => getAttr a k

/-- Attribute assignment (bs4 tag[key] = v): replace if present, else append. -/
def setAttr (attrs : List (String × String)) (k v : String) : List (String × String) :=
  if (attrs.find? (fun p => p.1 == k)).isSome then
    attrs.map (fun p => if p.1 == k then (k, v) else p)
  else attrs ++ [(k, v)]

mutual

/-- bs4 get_text(): concatenation of all text descendants in document order. -/
def Node.getText : Node → String
  | .text s => s
  | .elem _ _ cs => cs.getText

def NodeList.getText : NodeList → String
  | .nil => ""
  | .cons c cs => c.getText ++ cs.getText

end

mutual

/-- bs4 get_text(strip=True): each string stripped, then concatenated. -/
def Node.getTextStripped : Node → String
  | .text s => ⟨pyStrip s.data⟩
  | .elem _ _ cs => cs.getTextStripped

def NodeList.getTextStripped : NodeList → String
  | .nil => ""
  | .cons c cs => c.getTextStripped ++ cs.getTextStripped

end

mutual

/-- First node (the node itself or a descendant, in document order)
satisfying the predicate: bs4 find / select_one. -/
def Node.findFirst (p : Node → Bool) : Node → Option Node
  | .text s => if p (.text s) then some (.text s) else none
  | .elem t a cs =>
    if p (.elem t a cs) then some (.elem t a cs) else cs.findFirst p

def NodeList.findFirst (p : Node → Bool) : NodeList → Option Node
  | .nil => none
  | .cons c cs =>
    match c.findFirst p with
    | some r => some r
    | none => cs.findFirst p

end

mutual

/-- All nodes (self and descendants, document order) satisfying the
predicate: bs4 find_all. -/
def Node.findAll (p : Node → Bool) : Node → List Node
  | .text s => if p (.text s) then [.text s] else []
  | .elem t a cs =>
    (if p (.elem t a cs) then [Node.elem t a cs] else []) ++ cs.findAll p

def NodeList.findAll (p : Node → Bool) : NodeList → List Node
  | .nil => []
  | .cons c cs => c.findAll p ++ cs.findAll p

end

/-! ### Content extractor (docsnap.py lines 75-106) -/

/-- Space-separated class list of a node (bs4 multi-valued class attribute). -/
def classListOf (n : Node) : List (List Char) :=
  ((n.attrOf "class").getD "").data.splitOn ' ' |>.filter (fun c => !c.isEmpty)

/-- Selector div[role=main]. -/
def isDivRoleMain (n : Node) : Bool :=
  n.tagOf == "div" && n.attrOf "role" == some "main"

/-- Selector div[class*='content'] (substring of the serialized class value). -/
def isDivClassSub (sub : String) (n : Node) : Bool :=
  n.tagOf == "div" && listHasInfix sub.data ((n.attrOf "class").getD "").data

/-- Selector div[id*='content']. -/
def isDivIdSub (sub : String) (n : Node) : Bool :=
  n.tagOf == "div" && listHasInfix sub.data ((n.attrOf "id").getD "").data

/-- docsnap.extract_main_html: try the selector fallbacks in order,
returning the first candidate with non-empty stripped text; otherwise the
body, or the whole document when no body exists. A bs4 Tag is never None
here, so the result is always some node. -/
def extract_main_html (soup : Node) : Option Node :=
  let sels : List (Node → Bool) :=
    [fun n => n.tagOf == "main",
     fun n => n.tagOf == "article",
     isDivRoleMain,
     isDivClassSub "content",
     isDivClassSub "main-content",
     isDivIdSub "content"]
  match sels.findSome? (fun sel =>
      match soup.findFirst sel with
      | some tag => if tag.getTextStripped ≠ "" then some tag else none
      | none => none) with
  | some tag => some tag
  | none => some ((soup.findFirst (fun n => n.tagOf == "body")).getD soup)

/-- Tags removed outright by clean_html_fragment. -/
def denyTags : List String :=
  ["script", "style", "nav", "form", "footer", "header", "noscript"]

/-- Class names removed by clean_html_fragment. -/
def denyClasses : List String :=
  ["edit-on-github", "sidebar", "toc", "breadcrumbs", "page-nav", "nav",
   "site-footer", "site-header"]

/-- A node removed by the cleaning pass (tag denylist or class denylist).
Select order does not matter: removal deletes whole subtrees, so the final
tree drops exactly the descendants matching any criterion. -/
def isJunk (n : Node) : Bool :=
  denyTags.contains n.tagOf
    || denyClasses.any (fun c => (classListOf n).contains c.data)

mutual

def cleanChildren : NodeList → NodeList
  | .nil => .nil
  | .cons c cs =>
    if isJunk c then cleanChildren cs
    else
      match c with
      | .text s => .cons (.text s) (cleanChildren cs)
      | .elem t a cs2 => .cons (.elem t a (cleanChildren cs2)) (cleanChildren cs)

end

/-- docsnap.clean_html_fragment: remove denied descendants (the fragment
root itself is never removed; the comment-removal loop in the source is a
no-op). -/
def clean_html_fragment : Node → Node
  | .text s => .text s
  | .elem t a cs => .elem t a (cleanChildren cs)

/-- soup.find("title") text with strip=True, as used for page titles. -/
def findTitle (soup : Node) : Option String :=
  (soup.findFirst (fun n => n.tagOf == "title")).map Node.getTextStripped

/-- All href values of anchor elements with an href attribute, in document
order: soup.find_all("a", href=True). -/
def linksOf (soup : Node) : List String :=
  (soup.findAll (fun n => n.tagOf == "a" && (n.attrOf "href").isSome)).filterMap
    (fun n => n.attrOf "href")

/-! ### Heading identifiers (docsnap.py lines 189-193) -/

/-- Tags matched by re.compile("^h[1-6]$"). -/
def isHeadingTag (t : String) : Bool :=
  ["h1", "h2", "h3", "h4", "h5", "h6"].contains t

/-- Tags matched by re.compile("^h[1-3]$") for the chapter title. -/
def isChapterHeadTag (t : String) : Bool :=
  ["h1", "h2", "h3"].contains t

/-- Python truthiness of h.get('id'): the heading needs an id when the
attribute is absent or the empty string. -/
def needsId (n : Node) : Bool :=
  match n.attrOf "id" with
  | none => true
  | some v => v == ""

/-- One character of re.sub(r'[^a-zA-Z0-9_-]+', '-', ...): kept characters. -/
def isSafeChar (c : Char) : Bool :=
  c.isAlpha || c.isDigit || c == '_' || c == '-'

/-- re.sub(r'[^a-zA-Z0-9_-]+', '-', s): collapse each maximal run of
unsafe characters to a single '-'. The flag records whether the previous
character was part of an unsafe run. -/
def slugGo : Bool → List Char → List Char
  | _, [] => []
  | inRun, c :: cs =>
    if isSafeChar c then c :: slugGo false cs
    else if inRun then slugGo true cs
    else '-' :: slugGo true cs

/-- safe_id of a heading text: collapse unsafe runs, then [:60]. -/
def slugify (s : String) : String := ⟨(slugGo false s.data).take 60⟩

/-- The synthesized heading identifier f"p{i}-{safe_id}". -/
def mkHeadingId (i : Nat) (txt : String) : String :=
  "p" ++ natStr i ++ "-" ++ slugify txt

mutual

/-- The id-assignment pass of build_book_html on page i: every h1-h6
element whose id is absent or empty receives f"p{i}-{safe_id}" derived
from its text. Ids never contribute to get_text, so mutating in document
order (as the source does) equals this simultaneous transformation. -/
def Node.assignIds (i : Nat) : Node → Node
  | .text s => .text s
  | .elem t a cs =>
    let a' :=
      if isHeadingTag t && needsId (.elem t a cs) then
        setAttr a "id" (mkHeadingId i (Node.getText (.elem t a cs)))
      else a
    .elem t a' (cs.assignIds i)

def NodeList.assignIds (i : Nat) : NodeList → NodeList
  | .nil => .nil
  | .cons c cs => .cons (c.assignIds i) (cs.assignIds i)

end

/-- The heading elements of a document (document order). -/
def headingsOf (n : Node) : List Node :=
  n.findAll (fun h => isHeadingTag h.tagOf)

/-- The id values carried by the headings of a document (headings without
an id attribute contribute nothing). -/
def headingIdsOf (n : Node) : List String :=
  (headingsOf n).filterMap (fun h => h.attrOf "id")

/-- The identifiers the assembler synthesizes on page i for the headings
that arrive without a (truthy) id. -/
def synthIds (i : Nat) (n : Node) : List String :=
  (headingsOf n).filterMap
    (fun h => if needsId h then some (mkHeadingId i h.getText) else none)

/-! ### Book assembler (docsnap.py lines 177-234) -/

/-- A page record as stored by the crawl: url, title, content fragment. -/
structure PageRec where
  url : String
  title : String
  content : Node

/-- A chapter block of the assembled document. -/
structure Chapter where
  cid : String
  ctitle : String
  src : String
  content : Node

/-- Processing of one page at 1-based index i: assign heading ids, pick
the chapter title (first h1-h3, else the page title), build the TOC entry
(title, "chapter-<i>") and the chapter block. -/
def processPage (i : Nat) (p : PageRec) : (String × String) × Chapter :=
  let c := p.content.assignIds i
  let ct :=
    match c.findFirst (fun n => isChapterHeadTag n.tagOf) with
    | some h => h.getTextStripped
    | none => p.title
  let cid := "chapter-" ++ natStr i
  ((ct, cid), ⟨cid, ct, p.url, c⟩)

/-- docsnap.build_book_html, structured: the list of TOC entries and the
list of chapter blocks, in page order (the serialized HTML concatenates
these in the same order; re-parsing a stored fragment is the identity in
this model). -/
def build_book_html (pages : List PageRec) : List (String × String) × List Chapter :=
  let l := pages.enum.map (fun ip => processPage (ip.1 + 1) ip.2)
  (l.map (fun x => x.1), l.map (fun x => x.2))

/-- Every heading identifier of the assembled document, in document order
(the only heading elements carrying ids are those inside chapter content;
the title-page h1, TOC h2 and chapter h1 wrappers carry none). -/
def allHeadingIds (pages : List PageRec) : List String :=
  (build_book_html pages).2.flatMap (fun ch => headingIdsOf ch.content)

/-! ### Crawl engine (docsnap.py lines 110-175)

The external collaborators are oracle parameters: fetch models
SESSION.get (none = transport failure / raised exception, otherwise
status code and response text) and parse models BeautifulSoup. tqdm
progress display and time.sleep are output/timing only and are omitted;
the disabled robots.txt block is dead code and is omitted. -/

structure CrawlCfg where
  fetch : String → Option (Nat × String)
  parse : String → Node
  start_url : String
  max_pages : Nat
  allowedPathPre : Option String

/-- parsed.netloc of the start URL (line 116). -/
def CrawlCfg.baseNetloc (cfg : CrawlCfg) : String :=
  ⟨(urlparseL [] cfg.start_url.data).netloc⟩

/-- f"{parsed.scheme}://{parsed.netloc}" of the start URL (line 117). -/
def CrawlCfg.schemeNetloc (cfg : CrawlCfg) : String :=
  let p := urlparseL [] cfg.start_url.data
  ⟨p.scheme ++ "://".data ++ p.netloc⟩

/-- The allowed_path_prefix rejection test (line 130): with no configured
path restriction every URL passes; a falsy (empty) restriction also lets
every URL pass, matching startswith(""). -/
def CrawlCfg.pathOk (cfg : CrawlCfg) (url : String) : Bool :=
  match cfg.allowedPathPre with
  | none => true
  | some p => pyStartsWith url p

/-- File extensions discarded during link discovery (line 169),
case-insensitively against the end of the URL. -/
def hasMediaExt (u : String) : Bool :=
  let l := u.data.map Char.toLower
  ["jpg", "jpeg", "png", "gif", "svg", "pdf", "zip", "tar", "gz", "mp4",
   "webm"].any (fun e => ('.' :: e.data).isSuffixOf l)

structure CrawlState where
  to_visit : List String
  visited : List String
  pages : List PageRec
  log : List String

/-- Python set.add on a duplicate-free list model of the visited set. -/
def insertSet (u : String) (l : List String) : List String :=
  if u ∈ l then l else u :: l

/-- The link-discovery loop (lines 162-172): for each href of the fetched
page, normalize against the page URL, keep same-domain non-media links,
and append those not already visited, not already queued, and starting
with the start URL's scheme://netloc. -/
def discoverLinks (cfg : CrawlCfg) (pageUrl : String) (visited : List String)
    (tv : List String) (links : List String) : List String :=
  links.foldl
    (fun tv raw =>
      match normalize_link pageUrl raw with
      | none => tv
      | some href =>
        if !is_same_domain cfg.baseNetloc href then tv
        else if hasMediaExt href then tv
        else if href ∉ visited ∧ href ∉ tv ∧ pyStartsWith href cfg.schemeNetloc then
          tv ++ [href]
        else tv)
    tv

/-- Mark a URL visited and drop it from the frontier, optionally recording
that a fetch was attempted (the rejection and failure paths of the loop). -/
def markVisited (s : CrawlState) (url : String) (rest : List String)
    (logged : Bool) : CrawlState :=
  ⟨rest, insertSet url s.visited, s.pages,
   if logged then s.log ++ [url] else s.log⟩

/-- One iteration of the crawl loop (lines 123-173). none when the loop
guard fails (empty frontier or page cap reached). -/
def crawlStep (cfg : CrawlCfg) (s : CrawlState) : Option CrawlState :=
  match s.to_visit with
  | [] => none
  | url :: rest =>
    if s.visited.length < cfg.max_pages then
      if url ∈ s.visited then some ⟨rest, s.visited, s.pages, s.log⟩
      else if !is_same_domain cfg.baseNetloc url then
        some (markVisited s url rest false)
      else if !cfg.pathOk url then
        some (markVisited s url rest false)
      else
        match cfg.fetch url with
        | none => some (markVisited s url rest true)
        | some (status, body) =>
          if status ≠ 200 then some (markVisited s url rest true)
          else
            let soup := cfg.parse body
            let title := (findTitle soup).getD url
            match extract_main_html soup with
            | none => some (markVisited s url rest true)
            | some m =>
              let m := clean_html_fragment m
              let visited := insertSet url s.visited
              some ⟨discoverLinks cfg url visited rest (linksOf soup),
                    visited, s.pages ++ [⟨url, title, m⟩], s.log ++ [url]⟩
    else none

/-- Iterate the crawl loop. The Python loop terminates (each iteration
either grows the visited set, bounded by max_pages, or shrinks the
frontier); fuel makes the iteration a total structural function, and the
theorems below hold for every fuel, hence for the terminated run. -/
def crawlRun (cfg : CrawlCfg) : Nat → CrawlState → CrawlState
  | 0, s => s
  | n + 1, s =>
    match crawlStep cfg s with
    | none => s
    | some s2 => crawlRun cfg n s2

/-- Initial crawl state (lines 118-120). -/
def initState (cfg : CrawlCfg) : CrawlState :=
  ⟨[cfg.start_url], [], [], []⟩

/-- docsnap.crawl_docs as a fuel-indexed run from the initial state. -/
def crawl_docs (cfg : CrawlCfg) (fuel : Nat) : CrawlState :=
  crawlRun cfg fuel (initState cfg)

/-! ### Crawl invariants -/

theorem mem_insertSet {u v : String} {l : List String} :
    u ∈ insertSet v l ↔ u = v ∨ u ∈ l := by
  unfold insertSet
  split
  · constructor
    · intro h; exact Or.inr h
    · rintro (rfl | h)
      · assumption
      · exact h
  · simp

theorem insertSet_nodup {v : String} {l : List String} (h : l.Nodup) :
    (insertSet v l).Nodup := by
  unfold insertSet
  split
  · exact h
  · exact List.Nodup.cons (by assumption) h

theorem length_insertSet_of_not_mem {v : String} {l : List String} (h : v ∉ l) :
    (insertSet v l).length = l.length + 1 := by
  unfold insertSet
  split
  · exact absurd (by assumption) h
  · simp

theorem length_le_insertSet (v : String) (l : List String) :
    l.length ≤ (insertSet v l).length := by
  unfold insertSet
  split
  · exact le_refl _
  · simp

theorem subset_insertSet (v : String) {l : List String} {u : String} (h : u ∈ l) :
    u ∈ insertSet v l :=
  mem_insertSet.mpr (Or.inr h)

/-- The frontier predicate preserved by link discovery: no duplicates, and
every queued URL is unvisited and is the start URL or carries the start
URL's scheme://netloc. -/
def FrontierOk (cfg : CrawlCfg) (visited tv : List String) : Prop :=
  tv.Nodup ∧ ∀ u ∈ tv,
    u ∉ visited ∧ (u = cfg.start_url ∨ pyStartsWith u cfg.schemeNetloc)

theorem discoverLinks_ok (cfg : CrawlCfg) (pageUrl : String)
    (visited : List String) :
    ∀ (links : List String) (tv : List String), FrontierOk cfg visited tv →
      FrontierOk cfg visited (discoverLinks cfg pageUrl visited tv links) := by
  intro links
  induction links with
  | nil => intro tv h; exact h
  | cons raw rest ih =>
    intro tv h
    show FrontierOk cfg visited (List.foldl _ _ (raw :: rest))
    rw [List.foldl_cons]
    apply ih
    rcases hn : normalize_link pageUrl raw with _ | href
    · simpa [hn] using h
    · simp only [hn]
      split
      · exact h
      · split
        · exact h
        · split
          · rename_i hcond
            obtain ⟨hnv, hnt, hsw⟩ := hcond
            refine ⟨?_, ?_⟩
            · simp [List.nodup_append, h.1, List.disjoint_singleton, hnt]
            · intro u hu
              rcases List.mem_append.mp hu with hu | hu
              · exact h.2 u hu
              · simp at hu
                subst hu
                exact ⟨hnv, Or.inr hsw⟩
          · exact h

/-- The master invariant of the crawl loop. -/
structure CrawlInv (cfg : CrawlCfg) (s : CrawlState) : Prop where
  tv_nodup : s.to_visit.Nodup
  tv_fresh : ∀ u ∈ s.to_visit, u ∉ s.visited
  tv_scheme : ∀ u ∈ s.to_visit, u = cfg.start_url ∨ pyStartsWith u cfg.schemeNetloc
  vis_nodup : s.visited.Nodup
  vis_card : s.visited.length ≤ cfg.max_pages
  pages_le : s.pages.length ≤ s.visited.length
  pages_nodup : (s.pages.map PageRec.url).Nodup
  pages_vis : ∀ p ∈ s.pages, p.url ∈ s.visited
  pages_scheme : ∀ p ∈ s.pages, p.url = cfg.start_url ∨ pyStartsWith p.url cfg.schemeNetloc
  log_nodup : s.log.Nodup
  log_vis : ∀ u ∈ s.log, u ∈ s.visited
  pages_fetch : ∀ p ∈ s.pages, ∃ b, cfg.fetch p.url = some (200, b)
  pages_log : (s.pages.map PageRec.url).Sublist s.log

theorem initState_inv (cfg : CrawlCfg) : CrawlInv cfg (initState cfg) := by
  refine ⟨?_, ?_, ?_, ?_, ?_, ?_, ?_, ?_, ?_, ?_, ?_, ?_, ?_⟩ <;>
    simp [initState]

theorem markVisited_inv {cfg : CrawlCfg} {url : String} {rest : List String}
    {s : CrawlState} (b : Bool) (hinv : CrawlInv cfg s)
    (htv : s.to_visit = url :: rest) (hnm : url ∉ s.visited)
    (hlt : s.visited.length < cfg.max_pages) :
    CrawlInv cfg (markVisited s url rest b) := by
  have htvn : (url :: rest).Nodup := htv ▸ hinv.tv_nodup
  have hur : url ∉ rest := (List.nodup_cons.mp htvn).1
  refine ⟨?_, ?_, ?_, ?_, ?_, ?_, ?_, ?_, ?_, ?_, ?_, ?_, ?_⟩
  · exact (List.nodup_cons.mp htvn).2
  · intro u hu hmem
    rcases mem_insertSet.mp hmem with rfl | hmem
    · exact hur hu
    · exact hinv.tv_fresh u (htv ▸ List.mem_cons_of_mem _ hu) hmem
  · intro u hu
    exact hinv.tv_scheme u (htv ▸ List.mem_cons_of_mem _ hu)
  · exact insertSet_nodup hinv.vis_nodup
  · show (insertSet url s.visited).length ≤ cfg.max_pages
    rw [length_insertSet_of_not_mem hnm]; omega
  · show s.pages.length ≤ (insertSet url s.visited).length
    exact le_trans hinv.pages_le (length_le_insertSet _ _)
  · exact hinv.pages_nodup
  · intro p hp; exact subset_insertSet _ (hinv.pages_vis p hp)
  · exact hinv.pages_scheme
  · show (if b then s.log ++ [url] else s.log).Nodup
    split
    · refine List.nodup_append.mpr ⟨hinv.log_nodup, List.nodup_singleton _, ?_⟩
      intro u hu hu2
      simp at hu2
      subst hu2
      exact hnm (hinv.log_vis u hu)
    · exact hinv.log_nodup
  · show ∀ u ∈ (if b then s.log ++ [url] else s.log), u ∈ insertSet url s.visited
    split
    · intro u hu
      rcases List.mem_append.mp hu with hu | hu
      · exact subset_insertSet _ (hinv.log_vis u hu)
      · simp at hu; subst hu; exact mem_insertSet.mpr (Or.inl rfl)
    · intro u hu; exact subset_insertSet _ (hinv.log_vis u hu)
  · exact hinv.pages_fetch
  · show (s.pages.map PageRec.url).Sublist (if b then s.log ++ [url] else s.log)
    split
    · exact hinv.pages_log.trans (List.sublist_append_left _ _)
    · exact hinv.pages_log

theorem crawlStep_inv {cfg : CrawlCfg} {s s2 : CrawlState}
    (hinv : CrawlInv cfg s) (h : crawlStep cfg s = some s2) : CrawlInv cfg s2 := by
  rcases htv : s.to_visit with _ | ⟨url, rest⟩
  · rw [crawlStep, htv] at h; exact absurd h (by simp)
  · rw [crawlStep, htv] at h
    dsimp only at h
    by_cases hlt : s.visited.length < cfg.max_pages
    · rw [if_pos hlt] at h
      by_cases hvisited : url ∈ s.visited
      · rw [if_pos hvisited] at h
        injection h with h
        subst h
        exact ⟨(List.nodup_cons.mp (htv ▸ hinv.tv_nodup)).2,
          fun u hu => hinv.tv_fresh u (htv ▸ List.mem_cons_of_mem _ hu),
          fun u hu => hinv.tv_scheme u (htv ▸ List.mem_cons_of_mem _ hu),
          hinv.vis_nodup, hinv.vis_card, hinv.pages_le, hinv.pages_nodup,
          hinv.pages_vis, hinv.pages_scheme, hinv.log_nodup, hinv.log_vis,
          hinv.pages_fetch, hinv.pages_log⟩
      · rw [if_neg hvisited] at h
        split at h
        · injection h with h
          subst h
          exact markVisited_inv false hinv htv hvisited hlt
        · split at h
          · injection h with h
            subst h
            exact markVisited_inv false hinv htv hvisited hlt
          · rcases hfetch : cfg.fetch url with _ | ⟨st, body⟩
            · rw [hfetch] at h
              dsimp only at h
              injection h with h
              subst h
              exact markVisited_inv true hinv htv hvisited hlt
            · rw [hfetch] at h
              dsimp only at h
              by_cases hst : st ≠ 200
              · rw [if_pos hst] at h
                injection h with h
                subst h
                exact markVisited_inv true hinv htv hvisited hlt
              · rw [if_neg hst] at h
                push_neg at hst
                subst hst
                rcases hext : extract_main_html (cfg.parse body) with _ | m
                · rw [hext] at h
                  dsimp only at h
                  injection h with h
                  subst h
                  exact markVisited_inv true hinv htv hvisited hlt
                · rw [hext] at h
                  dsimp only at h
                  injection h with h
                  subst h
                  have htvn : (url :: rest).Nodup := htv ▸ hinv.tv_nodup
                  have hur : url ∉ rest := (List.nodup_cons.mp htvn).1
                  have hfr : FrontierOk cfg (insertSet url s.visited) rest := by
                    refine ⟨(List.nodup_cons.mp htvn).2, ?_⟩
                    intro u hu
                    refine ⟨?_, hinv.tv_scheme u (htv ▸ List.mem_cons_of_mem _ hu)⟩
                    intro hmem
                    rcases mem_insertSet.mp hmem with rfl | hmem
                    · exact hur hu
                    · exact hinv.tv_fresh u (htv ▸ List.mem_cons_of_mem _ hu) hmem
                  have hfr2 := discoverLinks_ok cfg url (insertSet url s.visited)
                    (linksOf (cfg.parse body)) rest hfr
                  have hvc : (insertSet url s.visited).length = s.visited.length + 1 :=
                    length_insertSet_of_not_mem hvisited
                  have hunm : url ∉ s.pages.map PageRec.url := by
                    intro hm
                    rcases List.mem_map.mp hm with ⟨p, hp, hpu⟩
                    exact hvisited (hpu ▸ hinv.pages_vis p hp)
                  refine ⟨hfr2.1, fun u hu => (hfr2.2 u hu).1, fun u hu => (hfr2.2 u hu).2,
                    insertSet_nodup hinv.vis_nodup, ?_, ?_, ?_, ?_, ?_, ?_, ?_, ?_, ?_⟩
                  · show (insertSet url s.visited).length ≤ cfg.max_pages
                    rw [hvc]; omega
                  · show (s.pages ++ [PageRec.mk url ((findTitle (cfg.parse body)).getD url)
        (clean_html_fragment m)]).length ≤ (insertSet url s.visited).length
                    rw [List.length_append, hvc]
                    have := hinv.pages_le
                    simp
                    omega
                  · show ((s.pages ++ [_]).map PageRec.url).Nodup
                    rw [List.map_append]
                    refine List.nodup_append.mpr ⟨hinv.pages_nodup, by simp, ?_⟩
                    intro u hu hu2
                    simp at hu2
                    subst hu2
                    exact hunm hu
                  · intro p hp
                    rcases List.mem_append.mp hp with hp | hp
                    · exact subset_insertSet _ (hinv.pages_vis p hp)
                    · simp at hp; subst hp; exact mem_insertSet.mpr (Or.inl rfl)
                  · intro p hp
                    rcases List.mem_append.mp hp with hp | hp
                    · exact hinv.pages_scheme p hp
                    · simp at hp
                      subst hp
                      exact hinv.tv_scheme url (htv ▸ List.mem_cons_self _ _)
                  · show (s.log ++ [url]).Nodup
                    refine List.nodup_append.mpr ⟨hinv.log_nodup, by simp, ?_⟩
                    intro u hu hu2
                    simp at hu2
                    subst hu2
                    exact hvisited (hinv.log_vis u hu)
                  · intro u hu
                    rcases List.mem_append.mp hu with hu | hu
                    · exact subset_insertSet _ (hinv.log_vis u hu)
                    · simp at hu; subst hu; exact mem_insertSet.mpr (Or.inl rfl)
                  · intro p hp
                    rcases List.mem_append.mp hp with hp | hp
                    · exact hinv.pages_fetch p hp
                    · simp at hp
                      subst hp
                      exact ⟨body, hfetch⟩
                  · show ((s.pages ++ [_]).map PageRec.url).Sublist (s.log ++ [url])
                    rw [List.map_append]
                    exact List.Sublist.append hinv.pages_log (by simp)
    · rw [if_neg hlt] at h
      exact absurd h (by simp)

theorem crawlRun_inv (cfg : CrawlCfg) :
    ∀ (n : Nat) (s : CrawlState), CrawlInv cfg s → CrawlInv cfg (crawlRun cfg n s) := by
  intro n
  induction n with
  | zero => intro s h; exact h
  | succ n ih =>
    intro s h
    rw [crawlRun]
    rcases hs : crawlStep cfg s with _ | s2
    · exact h
    · exact ih s2 (crawlStep_inv h hs)

theorem crawl_docs_inv (cfg : CrawlCfg) (fuel : Nat) :
    CrawlInv cfg (crawl_docs cfg fuel) :=
  crawlRun_inv cfg fuel (initState cfg) (initState_inv cfg)

/-! ### Heading identifier lemmas -/

theorem getAttr_map_set {k v : String} :
    ∀ (a : List (String × String)), (a.find? (fun p => p.1 == k)).isSome →
      getAttr (a.map (fun p => if p.1 == k then (k, v) else p)) k = some v := by
  intro a
  induction a with
  | nil => intro h; simp [List.find?] at h
  | cons p t ih =>
    intro h
    by_cases hp : p.1 == k
    · simp [getAttr, List.find?, hp]
    · have h2 : (t.find? (fun p => p.1 == k)).isSome := by
        simpa [List.find?, hp] using h
      have := ih h2
      simpa [getAttr, List.find?, hp] using this

theorem getAttr_append_self {k v : String} :
    ∀ (a : List (String × String)), getAttr (a ++ [(k, v)]) k = some v ∨
      (getAttr a k).isSome := by
  intro a
  induction a with
  | nil => simp [getAttr, List.find?]
  | cons p t ih =>
    by_cases hp : p.1 == k
    · right; simp [getAttr, List.find?, hp]
    · rcases ih with h | h
      · left; simpa [getAttr, List.find?, hp] using h
      · right; simpa [getAttr, List.find?, hp] using h

theorem getAttr_setAttr (a : List (String × String)) (k v : String) :
    getAttr (setAttr a k v) k = some v := by
  unfold setAttr
  split
  · exact getAttr_map_set a (by assumption)
  · rcases getAttr_append_self a with h | h
    · exact h
    · exfalso
      rename_i hns
      unfold getAttr at h
      rcases hf : a.find? (fun p => p.1 == k) with _ | q
      · rw [hf] at h; simp at h
      · exact hns (by rw [hf]; rfl)

/-- The id each heading of page i carries after the assignment pass: the
synthesized one when the original id was absent or empty, the original
otherwise. -/
def expectedId (i : Nat) (h : Node) : Option String :=
  if needsId h then some (mkHeadingId i h.getText) else h.attrOf "id"

theorem tagOf_elem (t : String) (a : List (String × String)) (cs : NodeList) :
    (Node.elem t a cs).tagOf = t := rfl

theorem tagOf_text (s : String) : (Node.text s).tagOf = "" := rfl

theorem attrOf_elem (t : String) (a : List (String × String)) (cs : NodeList)
    (k : String) : (Node.elem t a cs).attrOf k = getAttr a k := rfl

mutual

theorem assignIds_heading_ids (i : Nat) :
    ∀ (n : Node),
      ((n.assignIds i).findAll (fun h => isHeadingTag h.tagOf)).map (fun h => h.attrOf "id")
        = (n.findAll (fun h => isHeadingTag h.tagOf)).map (expectedId i)
  | .text s => by
      simp [Node.assignIds, Node.findAll, tagOf_text, isHeadingTag]
  | .elem t a cs => by
      have ihl := assignIds_heading_ids_list i cs
      by_cases hH : isHeadingTag t
      · by_cases hN : needsId (.elem t a cs)
        · simp [Node.assignIds, Node.findAll, tagOf_elem, hH, hN, ihl, attrOf_elem,
            getAttr_setAttr, expectedId]
        · rw [Bool.not_eq_true] at hN
          simp [Node.assignIds, Node.findAll, tagOf_elem, hH, hN, ihl, attrOf_elem,
            expectedId]
      · rw [Bool.not_eq_true] at hH
        simp [Node.assignIds, Node.findAll, tagOf_elem, hH, ihl]

theorem assignIds_heading_ids_list (i : Nat) :
    ∀ (l : NodeList),
      ((NodeList.assignIds i l).findAll (fun h => isHeadingTag h.tagOf)).map (fun h => h.attrOf "id")
        = (l.findAll (fun h => isHeadingTag h.tagOf)).map (expectedId i)
  | .nil => by simp [NodeList.assignIds, NodeList.findAll]
  | .cons c cs => by
      have ihn := assignIds_heading_ids i c
      have ihl := assignIds_heading_ids_list i cs
      simp only [NodeList.assignIds, NodeList.findAll, List.map_append, ihn, ihl]

end

theorem natDigits_inj {i j : Nat} (h : natDigits i = natDigits j) : i = j := by
  have := congrArg digitsVal h
  rwa [natDigits_val, natDigits_val] at this

/-- Synthesized heading ids embed the page index: distinct pages can never
collide, whatever the heading texts. -/
theorem mkHeadingId_page_inj {i j : Nat} {a b : String} (hij : i ≠ j) :
    mkHeadingId i a ≠ mkHeadingId j b := by
  intro h
  apply hij
  have hd := congrArg String.data h
  simp only [mkHeadingId, String.data_append, List.append_assoc] at hd
  have hd2 : 'p' :: (natDigits i ++ '-' :: (slugify a).data)
      = 'p' :: (natDigits j ++ '-' :: (slugify b).data) := by
    simpa using hd
  have hd3 := (List.cons.injEq _ _ _ _).mp hd2
  exact natDigits_inj (dash_prefix_inj _ _ _ _
    (natDigits_no_dash i) (natDigits_no_dash j) hd3.2)

theorem chapterId_inj : Function.Injective (fun i : Nat => "chapter-" ++ natStr i) := by
  intro i j h
  have hd := congrArg String.data h
  simp only [String.data_append] at hd
  exact natDigits_inj (List.append_cancel_left hd)

/-! ### Extractor totality and crawl-step lemmas -/

theorem extract_main_html_isSome (soup : Node) : (extract_main_html soup).isSome := by
  simp only [extract_main_html]
  split <;> simp

theorem crawlStep_records (cfg : CrawlCfg) (s : CrawlState) (url : String)
    (rest : List String) (st : Nat) (body : String)
    (htv : s.to_visit = url :: rest)
    (hlt : s.visited.length < cfg.max_pages)
    (hnm : url ∉ s.visited)
    (hdom : is_same_domain cfg.baseNetloc url = true)
    (hpre : cfg.pathOk url = true)
    (hfetch : cfg.fetch url = some (st, body))
    (hst : st = 200) :
    ∃ s2, crawlStep cfg s = some s2 ∧
      s2.pages.map PageRec.url = s.pages.map PageRec.url ++ [url] := by
  subst hst
  obtain ⟨m, hm⟩ := Option.isSome_iff_exists.mp (extract_main_html_isSome (cfg.parse body))
  rw [crawlStep, htv]
  dsimp only
  rw [if_pos hlt, if_neg hnm]
  simp only [hdom, hpre, hfetch, hm, Bool.not_true, if_false]
  simp

theorem crawlStep_pages_mono {cfg : CrawlCfg} {s s2 : CrawlState}
    (h : crawlStep cfg s = some s2) : s.pages <+: s2.pages := by
  rcases htv : s.to_visit with _ | ⟨url, rest⟩
  · rw [crawlStep, htv] at h; exact absurd h (by simp)
  · rw [crawlStep, htv] at h
    dsimp only at h
    by_cases hlt : s.visited.length < cfg.max_pages
    · rw [if_pos hlt] at h
      by_cases hvisited : url ∈ s.visited
      · rw [if_pos hvisited] at h
        injection h with h
        subst h
        exact List.prefix_refl _
      · rw [if_neg hvisited] at h
        split at h
        · injection h with h; subst h; exact List.prefix_refl _
        · split at h
          · injection h with h; subst h; exact List.prefix_refl _
          · rcases hfetch : cfg.fetch url with _ | ⟨st, body⟩
            · rw [hfetch] at h
              dsimp only at h
              injection h with h; subst h; exact List.prefix_refl _
            · rw [hfetch] at h
              dsimp only at h
              split at h
              · injection h with h; subst h; exact List.prefix_refl _
              · rcases hext : extract_main_html (cfg.parse body) with _ | m
                · rw [hext] at h
                  dsimp only at h
                  injection h with h; subst h; exact List.prefix_refl _
                · rw [hext] at h
                  dsimp only at h
                  injection h with h; subst h
                  exact List.prefix_append _ _
    · rw [if_neg hlt] at h
      exact absurd h (by simp)

theorem crawlRun_pages_mono (cfg : CrawlCfg) :
    ∀ (n : Nat) (s : CrawlState), s.pages <+: (crawlRun cfg n s).pages := by
  intro n
  induction n with
  | zero => intro s; exact List.prefix_refl _
  | succ n ih =>
    intro s
    rw [crawlRun]
    rcases hs : crawlStep cfg s with _ | s2
    · exact List.prefix_refl _
    · exact (crawlStep_pages_mono hs).trans (ih s2)

/-! ### Assembler lemmas -/

theorem build_book_chapter_srcs (pages : List PageRec) :
    ((build_book_html pages).2.map Chapter.src) = pages.map PageRec.url := by
  simp only [build_book_html, List.map_map]
  have hc : (Chapter.src ∘ (fun x : (String × String) × Chapter => x.2)
      ∘ fun ip : Nat × PageRec => processPage (ip.1 + 1) ip.2)
      = PageRec.url ∘ Prod.snd := by
    funext ip; rfl
  rw [hc, ← List.map_map, List.enum_map_snd]

theorem build_book_toc_anchors (pages : List PageRec) :
    (build_book_html pages).1.map Prod.snd = (build_book_html pages).2.map Chapter.cid := by
  simp only [build_book_html, List.map_map]
  have h1 : (Prod.snd ∘ (fun x : (String × String) × Chapter => x.1)
      ∘ fun ip : Nat × PageRec => processPage (ip.1 + 1) ip.2)
      = (Chapter.cid ∘ (fun x : (String × String) × Chapter => x.2)
      ∘ fun ip : Nat × PageRec => processPage (ip.1 + 1) ip.2) := by
    funext ip; rfl
  rw [h1]

theorem build_book_cid_nodup (pages : List PageRec) :
    ((build_book_html pages).2.map Chapter.cid).Nodup := by
  simp only [build_book_html, List.map_map]
  have hc : (Chapter.cid ∘ (fun x : (String × String) × Chapter => x.2)
      ∘ fun ip : Nat × PageRec => processPage (ip.1 + 1) ip.2)
      = (fun i => "chapter-" ++ natStr (i + 1)) ∘ Prod.fst := by
    funext ip; rfl
  rw [hc, ← List.map_map, List.enum_map_fst]
  refine List.Nodup.map ?_ (List.nodup_range _)
  intro i j h
  have := chapterId_inj h
  omega

/-! ### Normalization lemmas (for the idempotence claim) -/

theorem takeWhile_ne_of_not_mem {l : List Char} {ch : Char} (h : ch ∉ l) :
    l.takeWhile (fun c => c ≠ ch) = l := by
  rw [List.takeWhile_eq_self_iff]
  intro x hx
  simp only [ne_eq, decide_eq_true_eq]
  intro heq
  exact h (heq ▸ hx)

theorem urlsplitL_default {d l : List Char} {p : List Char × List Char}
    (h : splitScheme l = some p) : urlsplitL d l = urlsplitL [] l := by
  unfold urlsplitL
  rw [h]

theorem urlparseL_default {d l : List Char} {p : List Char × List Char}
    (h : splitScheme l = some p) : urlparseL d l = urlparseL [] l := by
  unfold urlparseL
  rw [urlsplitL_default h]

theorem urlparseL_scheme (d l : List Char) :
    (urlparseL d l).scheme = (urlsplitL d l).scheme := by
  unfold urlparseL
  dsimp only
  split <;> rfl

theorem urlsplitL_scheme_none {d l : List Char} (h : splitScheme l = none) :
    (urlsplitL d l).scheme = d := by
  unfold urlsplitL
  rw [h]

theorem scheme_parse_of_http {l : List Char}
    (h : (urlparseL [] l).scheme = "http".data ∨ (urlparseL [] l).scheme = "https".data) :
    ∃ p, splitScheme l = some p := by
  rcases hs : splitScheme l with _ | p
  · rw [urlparseL_scheme, urlsplitL_scheme_none hs] at h
    rcases h with h | h <;> exact absurd h (by decide)
  · exact ⟨p, hs ▸ rfl⟩

theorem urljoinL_canonical (base href : List Char)
    (hne : href ≠ [])
    (h5 : (urlparseL [] href).scheme = "http".data ∨ (urlparseL [] href).scheme = "https".data)
    (h6 : (urlparseL [] href).netloc ≠ [])
    (h7 : urlunparseL (urlparseL [] href) = href) :
    urljoinL base href = href := by
  have hrel : usesRelative.contains (urlparseL [] href).scheme = true := by
    rcases h5 with h | h <;> rw [h] <;> decide
  have hnet : usesNetloc.contains (urlparseL [] href).scheme = true := by
    rcases h5 with h | h <;> rw [h] <;> decide
  obtain ⟨p, hs⟩ := scheme_parse_of_http h5
  unfold urljoinL
  by_cases hb : base.isEmpty
  · rw [if_pos hb]
  · rw [if_neg hb, if_neg (by simpa [List.isEmpty_iff] using hne)]
    dsimp only
    rw [urlparseL_default hs]
    by_cases hsb : (urlparseL [] href).scheme = (urlparseL [] base).scheme
    · rw [if_neg ?_]
      · rw [if_pos ⟨hnet, h6⟩]
        exact h7
      · intro hc
        rcases hc with hc | hc
        · exact hc hsb
        · exact hc hrel
    · rw [if_pos (Or.inl hsb)]

/-! ### Example material for counterexamples and witnesses -/

/-- A heading with the text "Overview" and no id. -/
def hOverview : Node := .elem "h2" [] (.cons (.text "Overview") .nil)

/-- A page whose content contains the same "Overview" heading twice. -/
def overviewTwicePage : PageRec :=
  ⟨"http://h/a", "A", .elem "div" [] (.cons hOverview (.cons hOverview .nil))⟩

/-- A page with a single "Overview" heading. -/
def overviewPageA : PageRec :=
  ⟨"http://h/a", "A", .elem "div" [] (.cons hOverview .nil)⟩

/-- A second page with a single "Overview" heading. -/
def overviewPageB : PageRec :=
  ⟨"http://h/b", "B", .elem "div" [] (.cons hOverview .nil)⟩

/-- A crawl configuration whose fetcher always fails. -/
def cfgFail : CrawlCfg :=
  ⟨fun _ => none, fun _ => Node.text "", "http://h/", 5, none⟩

/-- A crawl configuration whose fetcher always returns 200 with a tiny page. -/
def cfgOk : CrawlCfg :=
  ⟨fun _ => some (200, "x"),
   fun _ => Node.elem "p" [] (.cons (.text "hi") .nil), "http://h/", 5, none⟩

/-- A crawl starting from an https URL, for the scheme-mismatch scenario. -/
def cfgHttps : CrawlCfg :=
  ⟨fun _ => none, fun _ => Node.text "", "https://h/", 5, none⟩

/-! ### Claims -/

/-- C1 counterexample: the Book Assembler does not make heading identifiers
unique document-wide. A single page whose content holds two headings with
the same text "Overview" and no pre-existing ids receives the identifier
p1-Overview on both, so two heading elements of the assembled document
share an identifier. -/
theorem duplicate_heading_ids_same_page :
    allHeadingIds [overviewTwicePage] = ["p1-Overview", "p1-Overview"]
    ∧ ¬ (allHeadingIds [overviewTwicePage]).Nodup := by
  exact ⟨by decide, by decide⟩

/-- C1 (amended): identifiers synthesized for headings that arrive without
a (truthy) id are unique across distinct pages — the page-index prefix
p<i>- makes any two synthesized identifiers from different pages differ —
but uniqueness does not extend to two same-slug headings within one page,
nor to headings with pre-existing ids, which the assembler leaves
untouched. -/
theorem synthIds_distinct_across_pages :
    ∀ (i j : Nat), i ≠ j → ∀ (ci cj : Node) (s t : String),
      s ∈ synthIds i ci → t ∈ synthIds j cj → s ≠ t := by
  intro i j hij ci cj s t hs ht
  obtain ⟨a, _, hfa⟩ := List.mem_filterMap.mp hs
  obtain ⟨b, _, hfb⟩ := List.mem_filterMap.mp ht
  by_cases hna : needsId a
  · rw [if_pos hna] at hfa
    injection hfa with hfa
    by_cases hnb : needsId b
    · rw [if_pos hnb] at hfb
      injection hfb with hfb
      rw [← hfa, ← hfb]
      exact mkHeadingId_page_inj hij
    · rw [if_neg hnb] at hfb
      exact absurd hfb (by simp)
  · rw [if_neg hna] at hfa
    exact absurd hfa (by simp)

/-- C1 witness: the synthesized identifiers of the "Overview" headings on
pages 1 and 2 really are distinct. -/
theorem synthIds_distinct_across_pages_witness :
    ("p1-Overview" : String) ≠ "p2-Overview" :=
  synthIds_distinct_across_pages 1 2 (by decide)
    overviewPageA.content overviewPageB.content
    "p1-Overview" "p2-Overview" (by decide) (by decide)

/-- C2 counterexample: the synthesized identifiers use the prefix p<i>-,
not page<i>-, and preserve the case of the heading text: two pages with an
"Overview" heading receive p1-Overview and p2-Overview, and the
identifiers page1-overview / page2-overview claimed by the specification
appear nowhere in the assembled document. -/
theorem heading_id_format_counterexample :
    allHeadingIds [overviewPageA, overviewPageB] = ["p1-Overview", "p2-Overview"]
    ∧ "page1-overview" ∉ allHeadingIds [overviewPageA, overviewPageB]
    ∧ "page2-overview" ∉ allHeadingIds [overviewPageA, overviewPageB] := by
  exact ⟨by decide, by decide, by decide⟩

/-- C2 (amended): after the assembler's id pass on page i, every heading
that arrived without a (truthy) id carries exactly
p<i>- followed by the slug of its text (runs of characters outside
[A-Za-z0-9_-] collapsed to a single '-', case preserved, truncated to 60
characters), and every other heading keeps its original id; in particular
the "Overview" scenario yields p1-Overview and p2-Overview, and the slug
part never exceeds 60 characters. -/
theorem heading_id_synthesis :
    (∀ (i : Nat) (n : Node),
      ((n.assignIds i).findAll (fun h => isHeadingTag h.tagOf)).map (fun h => h.attrOf "id")
        = (n.findAll (fun h => isHeadingTag h.tagOf)).map (expectedId i))
    ∧ (∀ (i : Nat) (p : PageRec), (processPage i p).2.content = p.content.assignIds i)
    ∧ mkHeadingId 1 "Overview" = "p1-Overview"
    ∧ mkHeadingId 2 "Overview" = "p2-Overview"
    ∧ (∀ t : String, (slugify t).data.length ≤ 60) := by
  refine ⟨assignIds_heading_ids, fun i p => rfl, by decide, by decide, ?_⟩
  intro t
  simp [slugify, List.length_take]

/-- C3: for every configuration and any amount of loop fuel, the crawl
marks at most max_pages distinct URLs as visited (the visited list is
duplicate-free and bounded) and the ordered result holds at most max_pages
page records. -/
theorem crawl_cap_enforcement :
    ∀ (cfg : CrawlCfg) (fuel : Nat),
      (crawl_docs cfg fuel).visited.Nodup
      ∧ (crawl_docs cfg fuel).visited.length ≤ cfg.max_pages
      ∧ (crawl_docs cfg fuel).pages.length ≤ cfg.max_pages := by
  intro cfg fuel
  have h := crawl_docs_inv cfg fuel
  exact ⟨h.vis_nodup, h.vis_card, le_trans h.pages_le h.vis_card⟩

/-- C4: no URL appears more than once in the union of the frontier and the
visited set: the invariant (frontier duplicate-free and disjoint from
visited) holds at initialization, is preserved by every loop iteration,
and therefore holds after any number of iterations. -/
theorem crawl_frontier_visited_disjoint :
    ∀ (cfg : CrawlCfg),
      ((initState cfg).to_visit.Nodup
        ∧ ∀ u ∈ (initState cfg).to_visit, u ∉ (initState cfg).visited)
      ∧ (∀ s s2 : CrawlState, CrawlInv cfg s → crawlStep cfg s = some s2 →
          s2.to_visit.Nodup ∧ ∀ u ∈ s2.to_visit, u ∉ s2.visited)
      ∧ (∀ fuel : Nat, (crawl_docs cfg fuel).to_visit.Nodup
          ∧ ∀ u ∈ (crawl_docs cfg fuel).to_visit, u ∉ (crawl_docs cfg fuel).visited) := by
  intro cfg
  refine ⟨⟨(initState_inv cfg).tv_nodup, (initState_inv cfg).tv_fresh⟩, ?_, ?_⟩
  · intro s s2 hinv hstep
    exact ⟨(crawlStep_inv hinv hstep).tv_nodup, (crawlStep_inv hinv hstep).tv_fresh⟩
  · intro fuel
    exact ⟨(crawl_docs_inv cfg fuel).tv_nodup, (crawl_docs_inv cfg fuel).tv_fresh⟩

/-- C4 witness: at initialization the start URL sits on the frontier and
is not visited. -/
theorem crawl_frontier_visited_disjoint_witness :
    "http://h/" ∉ (crawl_docs cfgFail 0).visited :=
  ((crawl_frontier_visited_disjoint cfgFail).2.2 0).2 "http://h/" (by decide)

/-- C5: the assembler emits exactly one chapter per page record in the
same order (the chapter source URLs are the page URLs, unrearranged), and
the crawl result's URL sequence is a subsequence of the fetch log, i.e.
pages appear in the order they were first successfully fetched. -/
theorem chapter_order_preserved :
    (∀ (pages : List PageRec),
      ((build_book_html pages).2.map Chapter.src) = pages.map PageRec.url)
    ∧ (∀ (cfg : CrawlCfg) (fuel : Nat),
        ((crawl_docs cfg fuel).pages.map PageRec.url).Sublist (crawl_docs cfg fuel).log) := by
  exact ⟨build_book_chapter_srcs, fun cfg fuel => (crawl_docs_inv cfg fuel).pages_log⟩

/-- C6: the table of contents has exactly one entry per chapter, each
entry's anchor equals the corresponding chapter's identifier chapter-<i>
positionally, and the chapter identifiers are pairwise distinct, so every
anchor resolves to exactly one chapter. -/
theorem toc_chapter_correspondence :
    ∀ (pages : List PageRec),
      (build_book_html pages).1.length = (build_book_html pages).2.length
      ∧ (build_book_html pages).1.map Prod.snd = (build_book_html pages).2.map Chapter.cid
      ∧ ((build_book_html pages).2.map Chapter.cid).Nodup := by
  intro pages
  refine ⟨?_, build_book_toc_anchors pages, build_book_cid_nodup pages⟩
  simp [build_book_html]

/-- C7: the crawl never fetches any URL twice (the fetch log is
duplicate-free), every URL whose fetch was attempted is marked visited,
and every URL in the result was fetched with status 200 — so a URL whose
fetch fails or returns a non-200 status is marked visited, excluded from
the result, never retried, and the loop goes on with the rest of the
frontier. -/
theorem fetch_failure_handling :
    ∀ (cfg : CrawlCfg) (fuel : Nat),
      (crawl_docs cfg fuel).log.Nodup
      ∧ (∀ u ∈ (crawl_docs cfg fuel).log, u ∈ (crawl_docs cfg fuel).visited)
      ∧ (∀ u ∈ (crawl_docs cfg fuel).pages.map PageRec.url,
          ∃ b, cfg.fetch u = some (200, b)) := by
  intro cfg fuel
  have h := crawl_docs_inv cfg fuel
  refine ⟨h.log_nodup, h.log_vis, ?_⟩
  intro u hu
  obtain ⟨p, hp, rfl⟩ := List.mem_map.mp hu
  exact h.pages_fetch p hp

/-- C7 witness: with a fetcher that always fails, after one iteration the
start URL was fetched, is marked visited, and the result is empty. -/
theorem fetch_failure_handling_witness :
    (crawl_docs cfgFail 1).pages.map PageRec.url = []
    ∧ "http://h/" ∈ (crawl_docs cfgFail 1).visited :=
  ⟨by decide, (fetch_failure_handling cfgFail 1).2.1 "http://h/" (by decide)⟩

/-- C8 counterexample: normalize(base, href) does not return every
absolute fragment-free href unchanged: "http://h/a?" is absolute (http
scheme, non-empty netloc) and fragment-free, yet urljoin re-serializes it
and drops the empty query marker, returning "http://h/a". -/
theorem normalize_link_not_identity :
    ('#' ∉ "http://h/a?".data)
    ∧ (urlparseL [] "http://h/a?".data).scheme = "http".data
    ∧ (urlparseL [] "http://h/a?".data).netloc ≠ []
    ∧ normalize_link "http://h/" "http://h/a?" = some "http://h/a"
    ∧ ("http://h/a" : String) ≠ "http://h/a?" := by
  exact ⟨by decide, by decide, by decide, by decide, by decide⟩

/-- C8 (amended): for every href that is an absolute http(s) URL in
canonical (parse-stable) form — non-empty, fragment-free, without
surrounding whitespace, not a mailto:/tel: link, with non-empty netloc,
and fixed by urlunparse after urlparse — normalize(base, href) returns
href unchanged for every base. -/
theorem normalize_link_idempotent_canonical (base href : String)
    (h0 : href ≠ "")
    (h1 : '#' ∉ href.data)
    (h2 : pyStrip href.data = href.data)
    (h3 : ¬ ("mailto:".data.isPrefixOf href.data = true))
    (h4 : ¬ ("tel:".data.isPrefixOf href.data = true))
    (h5 : (urlparseL [] href.data).scheme = "http".data
        ∨ (urlparseL [] href.data).scheme = "https".data)
    (h6 : (urlparseL [] href.data).netloc ≠ [])
    (h7 : urlunparseL (urlparseL [] href.data) = href.data) :
    normalize_link base href = some href := by
  unfold normalize_link
  rw [if_neg h0]
  dsimp only
  rw [takeWhile_ne_of_not_mem h1, h2]
  rw [if_neg (by simp [h3, h4])]
  have hne : href.data ≠ [] := by
    intro hd
    apply h0
    cases href with
    | mk d => simp at hd; simp [hd]
  rw [urljoinL_canonical base.data href.data hne h5 h6 h7]

/-- C8 witness: a canonical absolute https URL is returned unchanged. -/
theorem normalize_link_idempotent_canonical_witness :
    normalize_link "http://example.com/docs/" "https://example.com/a?b=c"
      = some "https://example.com/a?b=c" :=
  normalize_link_idempotent_canonical _ _ (by decide) (by decide) (by decide)
    (by decide) (by decide) (Or.inr (by decide)) (by decide) (by decide)

/-- C9: extract_main_html always produces a node (the body-or-document
fallback never yields None), so the extraction-failure branch of the crawl
loop is unreachable: whenever the head of the frontier passes the domain
and path checks and its fetch returns status 200, the iteration appends
exactly that URL to the result, and once recorded a page is never removed
(the result only grows). -/
theorem extraction_always_succeeds :
    (∀ soup : Node, (extract_main_html soup).isSome)
    ∧ (∀ (cfg : CrawlCfg) (s : CrawlState) (url : String) (rest : List String)
        (st : Nat) (body : String),
        s.to_visit = url :: rest → s.visited.length < cfg.max_pages →
        url ∉ s.visited → is_same_domain cfg.baseNetloc url = true →
        cfg.pathOk url = true → cfg.fetch url = some (st, body) → st = 200 →
        ∃ s2, crawlStep cfg s = some s2 ∧
          s2.pages.map PageRec.url = s.pages.map PageRec.url ++ [url])
    ∧ (∀ (cfg : CrawlCfg) (fuel : Nat) (s : CrawlState),
        s.pages <+: (crawlRun cfg fuel s).pages) := by
  exact ⟨extract_main_html_isSome, crawlStep_records,
    fun cfg fuel s => crawlRun_pages_mono cfg fuel s⟩

/-- C9 witness: a successful 200 fetch of the start URL records it. -/
theorem extraction_always_succeeds_witness :
    ∃ s2, crawlStep cfgOk (initState cfgOk) = some s2 ∧
      s2.pages.map PageRec.url = [] ++ ["http://h/"] :=
  extraction_always_succeeds.2.1 cfgOk (initState cfgOk) "http://h/" [] 200 "x"
    rfl (by decide) (by decide) (by decide) (by decide) rfl rfl

/-- C10: every URL on the frontier, and the URL of every page record,
is either the start URL itself or begins with the start URL's exact
scheme://netloc string; and this enqueue condition is strictly stronger
than the same-site netloc check: a same-host link reached under a
different scheme (http link during an https crawl) is discovered and
same-site, yet never enqueued. -/
theorem enqueue_scheme_netloc :
    (∀ (cfg : CrawlCfg) (fuel : Nat),
      (∀ u ∈ (crawl_docs cfg fuel).to_visit,
        u = cfg.start_url ∨ pyStartsWith u cfg.schemeNetloc)
      ∧ (∀ p ∈ (crawl_docs cfg fuel).pages,
        p.url = cfg.start_url ∨ pyStartsWith p.url cfg.schemeNetloc))
    ∧ (is_same_domain cfgHttps.baseNetloc "http://h/x" = true
      ∧ pyStartsWith "http://h/x" cfgHttps.schemeNetloc = false
      ∧ discoverLinks cfgHttps "https://h/" ["https://h/"] [] ["http://h/x"] = []) := by
  constructor
  · intro cfg fuel
    exact ⟨(crawl_docs_inv cfg fuel).tv_scheme, (crawl_docs_inv cfg fuel).pages_scheme⟩
  · exact ⟨by decide, by decide, by decide⟩

/-- C10 witness: the initial frontier consists of the start URL, which
satisfies the scheme-netloc property. -/
theorem enqueue_scheme_netloc_witness :
    "http://h/" = cfgFail.start_url ∨ pyStartsWith "http://h/" cfgFail.schemeNetloc :=
  (enqueue_scheme_netloc.1 cfgFail 0).1 "http://h/" (by decide)

end Docsnap
